import Mathlib

/-!
Shallow embedding of the tic-tac-toe engine in `src/script.js`.

The mutable module-level `state` object becomes an explicit `GameState`
value; `handleCellClick` becomes the pure transition `applyMove`, and
`restartGame` becomes `restartGame : GameState → GameState`.

Indexing model: the JS board is a 9-element array read with
`state.board[index]` where `index = parseInt(cell.dataset.index, 10)`.
A lookup at an in-range index yields the cell (null or a marker); a
lookup at a negative, too-large, or NaN index yields `undefined`.  We
model a move request as `Option Int` (`none` for NaN), a cell as
`Option Player` (`none` for null), and a lookup result as
`Option (Option Player)` (`none` for undefined).  The JS guard
`state.board[index] !== null` fails to hold exactly when the lookup
result is `some none`.
-/

/-- A player marker: the JS strings 'X' and 'O'. -/
inductive Player where
  | X : Player
  | O : Player
deriving DecidableEq, Repr

/-- A board cell: `null` or a marker. -/
abbrev Cell := Option Player

/-- The other marker, as in `state.currentPlayer === 'X' ? 'O' : 'X'`. -/
def Player.other : Player → Player
  | Player.X => Player.O
  | Player.O => Player.X

/-- The `state` object of `script.js`: board, currentPlayer, gameOver,
winner, winningLine. -/
structure GameState where
  board : List Cell
  currentPlayer : Player
  gameOver : Bool
  winner : Option Player
  winningLine : Option (List Nat)
deriving DecidableEq, Repr

/-- `WIN_LINES` from `script.js`: 3 rows, 3 columns, 2 diagonals, in the
listed order. -/
def WIN_LINES : List (Nat × Nat × Nat) :=
  [(0, 1, 2), (3, 4, 5), (6, 7, 8),
   (0, 3, 6), (1, 4, 7), (2, 5, 8),
   (0, 4, 8), (2, 4, 6)]

/-- The body of the `checkWinner` loop for one triple `[a, b, c]`:
`const val = state.board[a]; if (val && board[a] === board[b] && board[b] === board[c])
return { winner: val, line: [a, b, c] }`.  `val` truthy means the cell
holds a marker. -/
def lineWin (board : List Cell) (t : Nat × Nat × Nat) : Option (Player × List Nat) :=
  match board[t.1]? with
  | some (some v) =>
      if board[t.1]? = board[t.2.1]? ∧ board[t.2.1]? = board[t.2.2]? then
        some (v, [t.1, t.2.1, t.2.2])
      else none
  | _ => none

/-- `checkWinner` from `script.js`: scan `WIN_LINES` in order and return
the first `{ winner, line }` match, or null. -/
def checkWinner (board : List Cell) : Option (Player × List Nat) :=
  WIN_LINES.findSome? (lineWin board)

/-- `isDraw` from `script.js`: `state.board.every((cell) => cell !== null)`. -/
def isDraw (board : List Cell) : Bool :=
  board.all (fun c => c.isSome)

/-- JS lookup `state.board[index]`: `none` models `undefined` (NaN,
negative or out-of-range index), `some c` the stored cell. -/
def cellLookup (board : List Cell) (idx : Option Int) : Option Cell :=
  match idx with
  | none => none
  | some n => if n < 0 then none else board[n.toNat]?

/-- The mutation part of `handleCellClick` after the guard has passed:
write the current marker at cell `i`, then in strict order check winner,
check draw, else alternate the turn. -/
def moveCore (s : GameState) (i : Nat) : GameState :=
  let board := s.board.set i (some s.currentPlayer)
  match checkWinner board with
  | some (w, line) =>
      { board := board, currentPlayer := s.currentPlayer, gameOver := true,
        winner := some w, winningLine := some line }
  | none =>
      if isDraw board then
        { board := board, currentPlayer := s.currentPlayer, gameOver := true,
          winner := s.winner, winningLine := s.winningLine }
      else
        { board := board, currentPlayer := s.currentPlayer.other,
          gameOver := s.gameOver, winner := s.winner, winningLine := s.winningLine }

/-- The state transition of `handleCellClick`: the guard
`if (state.gameOver || state.board[index] !== null) return;` makes the
call a no-op unless the game is live and the lookup finds a null cell. -/
def applyMove (s : GameState) (idx : Option Int) : GameState :=
  if s.gameOver then s
  else
    match cellLookup s.board idx, idx with
    | some none, some n => moveCore s n.toNat
    | _, _ => s

/-- Whether a move request passes the guard of `handleCellClick`. -/
def accepted (s : GameState) (idx : Option Int) : Bool :=
  !s.gameOver && (cellLookup s.board idx == some none)

/-- The initial `state` object: 9 null cells, X to move, game live. -/
def initState : GameState :=
  { board := List.replicate 9 none, currentPlayer := Player.X,
    gameOver := false, winner := none, winningLine := none }

/-- `restartGame` from `script.js`: overwrites every field of `state`
with its initial value, regardless of the current state. -/
def restartGame (_s : GameState) : GameState :=
  { board := List.replicate 9 none, currentPlayer := Player.X,
    gameOver := false, winner := none, winningLine := none }

/-- The states reachable from the initial state through moves and
restarts. -/
inductive Reachable : GameState → Prop where
  | init : Reachable initState
  | move {s : GameState} (idx : Option Int) : Reachable s → Reachable (applyMove s idx)
  | reset {s : GameState} : Reachable s → Reachable (restartGame s)

/-- Number of cells holding marker `p`. -/
def countMarker (board : List Cell) (p : Player) : Nat :=
  board.count (some p)

/-- The theme allow-list checked by `initTheme`. -/
def themeAllowList : List String :=
  ["dark", "light", "retro", "ocean", "sunset", "forest"]

/-- `initTheme` from `script.js`, as a function of the storage outcome:
`Except.error ()` models `localStorage.getItem` throwing, `Except.ok none`
a null (absent) value, `Except.ok (some v)` a stored string `v`.  The JS
`getItem(key) || 'dark'` treats both null and the empty string as falsy;
a value outside the allow-list is replaced by 'dark'. -/
def initTheme : Except Unit (Option String) → String
  | Except.error _ => "dark"
  | Except.ok none => "dark"
  | Except.ok (some v) =>
      let saved := if v = "" then "dark" else v
      if themeAllowList.contains saved then saved else "dark"

/-- The spec-side reading of a completed line: all three cells of the
triple hold the same marker `w`. -/
def tripleWon (board : List Cell) (t : Nat × Nat × Nat) (w : Player) : Prop :=
  board[t.1]? = some (some w) ∧ board[t.2.1]? = some (some w) ∧
    board[t.2.2]? = some (some w)

instance (board : List Cell) (t : Nat × Nat × Nat) (w : Player) :
    Decidable (tripleWon board t w) := by
  unfold tripleWon; infer_instance

/-- State used to instantiate witnesses: X on 0 and 1, O on 3 and 4,
X to move. -/
def sWitWin : GameState :=
  { board := [some Player.X, some Player.X, none, some Player.O, some Player.O,
              none, none, none, none],
    currentPlayer := Player.X, gameOver := false, winner := none,
    winningLine := none }

/-- State used to instantiate witnesses: eight cells filled with no
completed line, only cell 8 empty, X to move. -/
def sWitDraw : GameState :=
  { board := [some Player.X, some Player.O, some Player.X, some Player.X,
              some Player.O, some Player.O, some Player.O, some Player.X, none],
    currentPlayer := Player.X, gameOver := false, winner := none,
    winningLine := none }

/-- The inductive invariant maintained by moves and restarts: a 9-cell
board; in a live game no completed line, a non-full board, no recorded
winner or winning line, and the marker counts determined by whose turn
it is; in a finished game a completed line or a full board, `winner`
recorded exactly when a line is completed, and marker counts within one
of each other. -/
def StateInv (s : GameState) : Prop :=
  s.board.length = 9 ∧
  (s.gameOver = false →
    checkWinner s.board = none ∧ isDraw s.board = false ∧
    s.winner = none ∧ s.winningLine = none ∧
    ((s.currentPlayer = Player.X ∧
        countMarker s.board Player.X = countMarker s.board Player.O) ∨
     (s.currentPlayer = Player.O ∧
        countMarker s.board Player.X = countMarker s.board Player.O + 1))) ∧
  (s.gameOver = true →
    (checkWinner s.board ≠ none ∨ isDraw s.board = true) ∧
    (s.winner.isSome = true ↔ checkWinner s.board ≠ none) ∧
    countMarker s.board Player.O ≤ countMarker s.board Player.X ∧
    countMarker s.board Player.X ≤ countMarker s.board Player.O + 1)

/-- The markers actually placed along a sequence of move requests: each
request that passes the guard contributes the mover's marker. -/
def acceptedMarkers : GameState → List (Option Int) → List Player
  | _, [] => []
  | s, idx :: rest =>
      if accepted s idx = true then
        s.currentPlayer :: acceptedMarkers (applyMove s idx) rest
      else acceptedMarkers (applyMove s idx) rest

/-- A list of markers strictly alternates starting from `p`. -/
def alternatingFrom : Player → List Player → Bool
  | _, [] => true
  | p, q :: rest => (p == q) && alternatingFrom p.other rest

/-! ### Step lemmas for `applyMove` -/

theorem applyMove_gameOver {s : GameState} (idx : Option Int) (h : s.gameOver = true) :
    applyMove s idx = s := by
  simp [applyMove, h]

theorem applyMove_nan (s : GameState) : applyMove s none = s := by
  cases hg : s.gameOver <;> simp [applyMove, cellLookup, hg]

theorem applyMove_not_empty {s : GameState} {idx : Option Int}
    (h : cellLookup s.board idx ≠ some none) : applyMove s idx = s := by
  cases hg : s.gameOver
  · rcases hc : cellLookup s.board idx with _ | (_ | p) <;>
      rcases idx with _ | n <;>
      first
      | (exact absurd hc h)
      | simp [applyMove, hg, hc]
  · exact applyMove_gameOver idx hg

theorem applyMove_accepted {s : GameState} {n : Int}
    (hg : s.gameOver = false) (hc : cellLookup s.board (some n) = some none) :
    applyMove s (some n) = moveCore s n.toNat := by
  simp [applyMove, hg, hc]

theorem moveCore_win {s : GameState} {i : Nat} {w : Player} {line : List Nat}
    (hw : checkWinner (s.board.set i (some s.currentPlayer)) = some (w, line)) :
    moveCore s i =
      { board := s.board.set i (some s.currentPlayer),
        currentPlayer := s.currentPlayer, gameOver := true,
        winner := some w, winningLine := some line } := by
  simp [moveCore, hw]

theorem moveCore_draw {s : GameState} {i : Nat}
    (hw : checkWinner (s.board.set i (some s.currentPlayer)) = none)
    (hd : isDraw (s.board.set i (some s.currentPlayer)) = true) :
    moveCore s i =
      { board := s.board.set i (some s.currentPlayer),
        currentPlayer := s.currentPlayer, gameOver := true,
        winner := s.winner, winningLine := s.winningLine } := by
  simp [moveCore, hw, hd]

theorem moveCore_cont {s : GameState} {i : Nat}
    (hw : checkWinner (s.board.set i (some s.currentPlayer)) = none)
    (hd : isDraw (s.board.set i (some s.currentPlayer)) = false) :
    moveCore s i =
      { board := s.board.set i (some s.currentPlayer),
        currentPlayer := s.currentPlayer.other, gameOver := s.gameOver,
        winner := s.winner, winningLine := s.winningLine } := by
  simp [moveCore, hw, hd]

/-! ### First-match characterization of `checkWinner` -/

theorem lineWin_of_tripleWon {board : List Cell} {t : Nat × Nat × Nat} {w : Player}
    (h : tripleWon board t w) : lineWin board t = some (w, [t.1, t.2.1, t.2.2]) := by
  simp [lineWin, h.1, h.2.1, h.2.2]

theorem lineWin_none_of_not_tripleWon {board : List Cell} {t : Nat × Nat × Nat}
    (h : ∀ w, ¬ tripleWon board t w) : lineWin board t = none := by
  rcases hv : board[t.1]? with _ | (_ | v) <;> simp [lineWin, hv]
  intro h1 h2
  exact h v ⟨hv, hv ▸ h1.symm, hv ▸ (h1.trans h2).symm⟩

theorem findSome?_eq_of_first {α β : Type} (f : α → Option β) :
    ∀ (l : List α) (k : Nat) (a : α) (b : β),
      l[k]? = some a → f a = some b →
      (∀ j, j < k → ∀ x, l[j]? = some x → f x = none) →
      l.findSome? f = some b := by
  intro l
  induction l with
  | nil => intro k a b hk _ _; simp at hk
  | cons x xs ih =>
    intro k a b hk hb hprev
    cases k with
    | zero =>
      simp only [List.getElem?_cons_zero, Option.some.injEq] at hk
      subst hk
      simp [List.findSome?_cons, hb]
    | succ k =>
      have hx : f x = none := hprev 0 (Nat.succ_pos k) x (by simp)
      have hrest : xs.findSome? f = some b := by
        refine ih k a b (by simpa using hk) hb ?_
        intro j hj y hy
        exact hprev (j + 1) (Nat.succ_lt_succ hj) y (by simpa using hy)
      simp [List.findSome?_cons, hx, hrest]

/-! ### Helper facts -/

theorem cellLookup_natCast {board : List Cell} (n : Nat) :
    cellLookup board (some (n : Int)) = board[n]? := by
  simp [cellLookup]

/-- C1: for an accepted move (game live, target cell empty), after the
current marker is written, if the triple at position `k` of `WIN_LINES`
is completed and no earlier triple is, the move ends with
`gameOver = true`, `winner` the written marker, `winningLine` that first
completed triple, and `currentPlayer` unchanged. -/
theorem claim_C1 (s : GameState) (n k : Nat) (w : Player) (t : Nat × Nat × Nat)
    (hg : s.gameOver = false)
    (he : s.board[n]? = some none)
    (hk : WIN_LINES[k]? = some t)
    (hw : tripleWon (s.board.set n (some s.currentPlayer)) t w)
    (hfirst : ∀ j, j < k → ∀ u, WIN_LINES[j]? = some u →
      ∀ v, ¬ tripleWon (s.board.set n (some s.currentPlayer)) u v) :
    (applyMove s (some (n : Int))).gameOver = true ∧
    (applyMove s (some (n : Int))).winner = some w ∧
    (applyMove s (some (n : Int))).winningLine = some [t.1, t.2.1, t.2.2] ∧
    (applyMove s (some (n : Int))).currentPlayer = s.currentPlayer := by
  have hc : cellLookup s.board (some (n : Int)) = some none :=
    (cellLookup_natCast n).trans he
  have hcw : checkWinner (s.board.set n (some s.currentPlayer)) =
      some (w, [t.1, t.2.1, t.2.2]) :=
    findSome?_eq_of_first (lineWin (s.board.set n (some s.currentPlayer)))
      WIN_LINES k t (w, [t.1, t.2.1, t.2.2]) hk (lineWin_of_tripleWon hw)
      (fun j hj u hu => lineWin_none_of_not_tripleWon (hfirst j hj u hu))
  have hn : (((n : Int)).toNat) = n := Int.toNat_natCast n
  rw [applyMove_accepted hg hc, hn, moveCore_win hcw]
  exact ⟨rfl, rfl, rfl, rfl⟩

theorem claim_C1_witness :
    (applyMove sWitWin (some ((2 : Nat) : Int))).gameOver = true ∧
    (applyMove sWitWin (some ((2 : Nat) : Int))).winner = some Player.X ∧
    (applyMove sWitWin (some ((2 : Nat) : Int))).winningLine = some [0, 1, 2] ∧
    (applyMove sWitWin (some ((2 : Nat) : Int))).currentPlayer = sWitWin.currentPlayer :=
  claim_C1 sWitWin 2 0 Player.X (0, 1, 2) rfl (by decide) rfl (by decide)
    (fun j hj => absurd hj (Nat.not_lt_zero j))

/-- C2: for an accepted move after which no winning line exists, a full
board ends the game with `winner` and `winningLine` still absent; and
because the draw check runs only after the winner check, a full board
that does contain a winning line resolves to a win, never a draw. -/
theorem claim_C2 (s : GameState) (n : Nat)
    (hg : s.gameOver = false) (he : s.board[n]? = some none)
    (hwn : s.winner = none) (hwl : s.winningLine = none) :
    (checkWinner (s.board.set n (some s.currentPlayer)) = none →
      isDraw (s.board.set n (some s.currentPlayer)) = true →
      (applyMove s (some (n : Int))).gameOver = true ∧
      (applyMove s (some (n : Int))).winner = none ∧
      (applyMove s (some (n : Int))).winningLine = none) ∧
    (∀ w l, isDraw (s.board.set n (some s.currentPlayer)) = true →
      checkWinner (s.board.set n (some s.currentPlayer)) = some (w, l) →
      (applyMove s (some (n : Int))).gameOver = true ∧
      (applyMove s (some (n : Int))).winner = some w ∧
      (applyMove s (some (n : Int))).winningLine = some l) := by
  have hc : cellLookup s.board (some (n : Int)) = some none :=
    (cellLookup_natCast n).trans he
  have hn : (((n : Int)).toNat) = n := Int.toNat_natCast n
  constructor
  · intro hcw hd
    rw [applyMove_accepted hg hc, hn, moveCore_draw hcw hd]
    exact ⟨rfl, hwn, hwl⟩
  · intro w l _ hcw
    rw [applyMove_accepted hg hc, hn, moveCore_win hcw]
    exact ⟨rfl, rfl, rfl⟩

theorem claim_C2_witness :
    (applyMove sWitDraw (some ((8 : Nat) : Int))).gameOver = true ∧
    (applyMove sWitDraw (some ((8 : Nat) : Int))).winner = none ∧
    (applyMove sWitDraw (some ((8 : Nat) : Int))).winningLine = none :=
  (claim_C2 sWitDraw 8 rfl (by decide) rfl rfl).1 (by decide) (by decide)

/-- C3: a move request while the game is over, or aimed at an occupied
cell, is a silent no-op: the whole state is unchanged (and the function
is total, so no error is raised). -/
theorem claim_C3 (s : GameState) (idx : Option Int)
    (h : s.gameOver = true ∨ ∃ p, cellLookup s.board idx = some (some p)) :
    applyMove s idx = s := by
  rcases h with h | ⟨p, hp⟩
  · exact applyMove_gameOver idx h
  · exact applyMove_not_empty (by simp [hp])

theorem claim_C3_witness : applyMove sWitWin (some 0) = sWitWin :=
  claim_C3 sWitWin (some 0) (Or.inr ⟨Player.X, by decide⟩)

/-- C4: reset has no precondition and, from every state, yields exactly
the initial state: 9 empty cells, X to move, game live, no winner, no
winning line. -/
theorem claim_C4 (s : GameState) :
    restartGame s = initState ∧
    (restartGame s).board = List.replicate 9 none ∧
    (restartGame s).currentPlayer = Player.X ∧
    (restartGame s).gameOver = false ∧
    (restartGame s).winner = none ∧
    (restartGame s).winningLine = none :=
  ⟨rfl, rfl, rfl, rfl, rfl, rfl⟩

/-! ### Counting lemmas -/

theorem countMarker_set_self {p : Player} :
    ∀ (b : List Cell) (i : Nat), b[i]? = some none →
      countMarker (b.set i (some p)) p = countMarker b p + 1 := by
  intro b
  induction b with
  | nil => intro i h; simp at h
  | cons c cs ih =>
    intro i h
    cases i with
    | zero =>
      simp only [List.getElem?_cons_zero, Option.some.injEq] at h
      subst h
      simp [countMarker, List.count_cons]
    | succ i =>
      simp only [List.getElem?_cons_succ] at h
      have h' := ih i h
      simp only [countMarker, List.set_cons_succ, List.count_cons] at h' ⊢
      omega

theorem countMarker_set_other {p q : Player} (hq : q ≠ p) :
    ∀ (b : List Cell) (i : Nat), b[i]? = some none →
      countMarker (b.set i (some p)) q = countMarker b q := by
  intro b
  induction b with
  | nil => intro i h; simp at h
  | cons c cs ih =>
    intro i h
    cases i with
    | zero =>
      simp only [List.getElem?_cons_zero, Option.some.injEq] at h
      subst h
      simp [countMarker, List.count_cons, hq, Ne.symm hq]
    | succ i =>
      simp only [List.getElem?_cons_succ] at h
      have h' := ih i h
      simp only [countMarker, List.set_cons_succ, List.count_cons] at h' ⊢
      omega

/-! ### The reachable-state invariant -/

theorem Player.other_ne (p : Player) : p.other ≠ p := by
  cases p <;> decide

theorem cellLookup_some_none {b : List Cell} {n : Int}
    (h : cellLookup b (some n) = some none) : b[n.toNat]? = some none := by
  by_cases hn : n < 0
  · simp [cellLookup, hn] at h
  · simpa [cellLookup, hn] using h

theorem inv_init : StateInv initState := by
  unfold StateInv
  decide

theorem inv_reset (s : GameState) : StateInv (restartGame s) := inv_init

/-- All marker-count consequences of writing the current marker into an
empty cell, given the turn/count relation of a live state. -/
theorem counts_after (s : GameState) (i : Nat) (he : s.board[i]? = some none)
    (hcnt : (s.currentPlayer = Player.X ∧
        countMarker s.board Player.X = countMarker s.board Player.O) ∨
      (s.currentPlayer = Player.O ∧
        countMarker s.board Player.X = countMarker s.board Player.O + 1)) :
    countMarker (s.board.set i (some s.currentPlayer)) Player.O ≤
      countMarker (s.board.set i (some s.currentPlayer)) Player.X ∧
    countMarker (s.board.set i (some s.currentPlayer)) Player.X ≤
      countMarker (s.board.set i (some s.currentPlayer)) Player.O + 1 ∧
    ((s.currentPlayer.other = Player.X ∧
        countMarker (s.board.set i (some s.currentPlayer)) Player.X =
          countMarker (s.board.set i (some s.currentPlayer)) Player.O) ∨
     (s.currentPlayer.other = Player.O ∧
        countMarker (s.board.set i (some s.currentPlayer)) Player.X =
          countMarker (s.board.set i (some s.currentPlayer)) Player.O + 1)) := by
  have hself := @countMarker_set_self s.currentPlayer s.board i he
  have hother :=
    countMarker_set_other (Player.other_ne s.currentPlayer) s.board i he
  rcases hcnt with ⟨hx, hco⟩ | ⟨hx, hco⟩ <;>
    rw [hx] at hself hother ⊢ <;>
    simp only [Player.other] at hself hother ⊢
  · exact ⟨by omega, by omega, Or.inr ⟨by trivial, by omega⟩⟩
  · exact ⟨by omega, by omega, Or.inl ⟨by trivial, by omega⟩⟩

theorem inv_move (s : GameState) (idx : Option Int) (h : StateInv s) :
    StateInv (applyMove s idx) := by
  cases hg : s.gameOver
  case true => rw [applyMove_gameOver idx hg]; exact h
  case false =>
  rcases idx with _ | n
  · rw [applyMove_nan]; exact h
  by_cases hc : cellLookup s.board (some n) = some none
  case neg => rw [applyMove_not_empty hc]; exact h
  rw [applyMove_accepted hg hc]
  obtain ⟨hlen, hlive, _⟩ := h
  obtain ⟨hcw0, hd0, hwn, hwl, hcnt⟩ := hlive hg
  have he : s.board[n.toNat]? = some none := cellLookup_some_none hc
  obtain ⟨hole, hle, halt⟩ := counts_after s n.toNat he hcnt
  have hlen' : (s.board.set n.toNat (some s.currentPlayer)).length = 9 := by
    rw [List.length_set]; exact hlen
  rcases hcw : checkWinner (s.board.set n.toNat (some s.currentPlayer)) with _ | ⟨w, line⟩
  · rcases hd : isDraw (s.board.set n.toNat (some s.currentPlayer))
    · rw [moveCore_cont hcw hd]
      refine ⟨hlen', fun _ => ⟨hcw, hd, hwn, hwl, halt⟩, fun hco => ?_⟩
      exact absurd (hg.symm.trans hco) (by decide)
    · rw [moveCore_draw hcw hd]
      refine ⟨hlen', fun hcontra => Bool.noConfusion hcontra,
        fun _ => ⟨Or.inr hd, ?_, hole, hle⟩⟩
      show s.winner.isSome = true ↔
        checkWinner (s.board.set n.toNat (some s.currentPlayer)) ≠ none
      rw [hwn, hcw]
      simp
  · rw [moveCore_win hcw]
    refine ⟨hlen', fun hcontra => Bool.noConfusion hcontra,
      fun _ => ⟨Or.inl ?_, ?_, hole, hle⟩⟩
    · show checkWinner (s.board.set n.toNat (some s.currentPlayer)) ≠ none
      rw [hcw]
      simp
    · show (some w).isSome = true ↔
        checkWinner (s.board.set n.toNat (some s.currentPlayer)) ≠ none
      rw [hcw]
      simp

theorem reachable_inv {s : GameState} (h : Reachable s) : StateInv s := by
  induction h with
  | init => exact inv_init
  | move idx _ ih => exact inv_move _ idx ih
  | reset _ ih => exact inv_reset _

theorem moveCore_board (s : GameState) (i : Nat) :
    (moveCore s i).board = s.board.set i (some s.currentPlayer) := by
  rcases hcw : checkWinner (s.board.set i (some s.currentPlayer)) with _ | ⟨w, l⟩
  · rcases hd : isDraw (s.board.set i (some s.currentPlayer))
    · rw [moveCore_cont hcw hd]
    · rw [moveCore_draw hcw hd]
  · rw [moveCore_win hcw]

/-- C6: in every reachable state, the game is over exactly when a
completed line exists or the board is full, and a winner is recorded
exactly when a completed line exists (never in a draw). -/
theorem claim_C6 (s : GameState) (h : Reachable s) :
    (s.gameOver = true ↔ (checkWinner s.board ≠ none ∨ isDraw s.board = true)) ∧
    (s.winner.isSome = true ↔ checkWinner s.board ≠ none) := by
  obtain ⟨_, hlive, hdone⟩ := reachable_inv h
  cases hg : s.gameOver
  · obtain ⟨hcw, hd, hwn, _, _⟩ := hlive hg
    constructor
    · constructor
      · intro habs; exact Bool.noConfusion habs
      · rintro (hne | hdr)
        · exact absurd hcw hne
        · rw [hd] at hdr; exact Bool.noConfusion hdr
    · rw [hwn, hcw]; simp
  · obtain ⟨hor, hiff, _, _⟩ := hdone hg
    exact ⟨⟨fun _ => hor, fun _ => rfl⟩, hiff⟩

theorem claim_C6_witness :
    ((applyMove initState (some 0)).gameOver = true ↔
      (checkWinner (applyMove initState (some 0)).board ≠ none ∨
        isDraw (applyMove initState (some 0)).board = true)) ∧
    ((applyMove initState (some 0)).winner.isSome = true ↔
      checkWinner (applyMove initState (some 0)).board ≠ none) :=
  claim_C6 (applyMove initState (some 0)) (Reachable.move (some 0) Reachable.init)

/-- C7: in every reachable state, an accepted move adds one to the
count of exactly the mover's marker; the two counts differ by at most
one; and in a live state X holds equal to or one more than O. -/
theorem claim_C7 (s : GameState) (h : Reachable s) :
    (∀ n : Nat, s.gameOver = false → s.board[n]? = some none →
      countMarker (applyMove s (some (n : Int))).board s.currentPlayer =
        countMarker s.board s.currentPlayer + 1 ∧
      countMarker (applyMove s (some (n : Int))).board s.currentPlayer.other =
        countMarker s.board s.currentPlayer.other) ∧
    countMarker s.board Player.X ≤ countMarker s.board Player.O + 1 ∧
    countMarker s.board Player.O ≤ countMarker s.board Player.X + 1 ∧
    (s.gameOver = false →
      countMarker s.board Player.X = countMarker s.board Player.O ∨
      countMarker s.board Player.X = countMarker s.board Player.O + 1) := by
  obtain ⟨_, hlive, hdone⟩ := reachable_inv h
  have hcounts : countMarker s.board Player.O ≤ countMarker s.board Player.X ∧
      countMarker s.board Player.X ≤ countMarker s.board Player.O + 1 := by
    cases hg : s.gameOver
    · rcases (hlive hg).2.2.2.2 with ⟨_, hco⟩ | ⟨_, hco⟩ <;> exact ⟨by omega, by omega⟩
    · exact ⟨(hdone hg).2.2.1, (hdone hg).2.2.2⟩
  refine ⟨?_, by omega, by omega, ?_⟩
  · intro n hg he
    have hc : cellLookup s.board (some (n : Int)) = some none :=
      (cellLookup_natCast n).trans he
    rw [applyMove_accepted hg hc, Int.toNat_natCast, moveCore_board]
    exact ⟨@countMarker_set_self s.currentPlayer s.board n he,
      countMarker_set_other (Player.other_ne s.currentPlayer) s.board n he⟩
  · intro hg
    rcases (hlive hg).2.2.2.2 with ⟨_, hco⟩ | ⟨_, hco⟩
    · exact Or.inl hco
    · exact Or.inr hco

theorem claim_C7_witness :
    (countMarker (applyMove initState (some ((1 : Nat) : Int))).board
        initState.currentPlayer =
      countMarker initState.board initState.currentPlayer + 1 ∧
     countMarker (applyMove initState (some ((1 : Nat) : Int))).board
        initState.currentPlayer.other =
      countMarker initState.board initState.currentPlayer.other) ∧
    countMarker initState.board Player.X ≤ countMarker initState.board Player.O + 1 :=
  ⟨(claim_C7 initState Reachable.init).1 1 rfl (by decide),
   (claim_C7 initState Reachable.init).2.1⟩

/-- C10: a move request at an index outside [0,8] (negative, too large,
or NaN from a non-numeric attribute) leaves the whole state unchanged:
the out-of-range lookup yields no cell value, so the emptiness guard
fails and the call is a silent no-op. -/
theorem claim_C10 (s : GameState) (h : Reachable s) :
    (∀ n : Int, n < 0 ∨ 9 ≤ n → applyMove s (some n) = s) ∧
    applyMove s none = s := by
  have hlen : s.board.length = 9 := (reachable_inv h).1
  refine ⟨?_, applyMove_nan s⟩
  intro n hn
  apply applyMove_not_empty
  rcases hn with hn | hn
  · simp [cellLookup, hn]
  · have hge : s.board[n.toNat]? = none := by
      apply List.getElem?_eq_none
      rw [hlen]; omega
    have hlt : ¬ n < 0 := by omega
    simp [cellLookup, hlt, hge]

theorem claim_C10_witness :
    applyMove initState (some (-1)) = initState ∧
    applyMove initState (some 9) = initState ∧
    applyMove initState none = initState :=
  ⟨(claim_C10 initState Reachable.init).1 (-1) (Or.inl (by decide)),
   (claim_C10 initState Reachable.init).1 9 (Or.inr (by decide)),
   (claim_C10 initState Reachable.init).2⟩

/-! ### Alternation along move sequences -/

theorem accepted_true_iff {s : GameState} {idx : Option Int} :
    accepted s idx = true ↔
      s.gameOver = false ∧ cellLookup s.board idx = some none := by
  simp [accepted]

theorem applyMove_not_accepted {s : GameState} {idx : Option Int}
    (h : accepted s idx = false) : applyMove s idx = s := by
  cases hg : s.gameOver
  · apply applyMove_not_empty
    intro hc
    have : accepted s idx = true := accepted_true_iff.mpr ⟨hg, hc⟩
    rw [h] at this
    exact Bool.noConfusion this
  · exact applyMove_gameOver idx hg

theorem acceptedMarkers_gameOver :
    ∀ (l : List (Option Int)) (s : GameState), s.gameOver = true →
      acceptedMarkers s l = [] := by
  intro l
  induction l with
  | nil => intro s _; rfl
  | cons idx rest ih =>
    intro s hg
    have ha : accepted s idx = false := by simp [accepted, hg]
    rw [acceptedMarkers, ha]
    simp only [Bool.false_eq_true, if_false]
    rw [applyMove_not_accepted ha]
    exact ih s hg

theorem alternating_acceptedMarkers :
    ∀ (l : List (Option Int)) (s : GameState),
      alternatingFrom s.currentPlayer (acceptedMarkers s l) = true := by
  intro l
  induction l with
  | nil => intro s; rfl
  | cons idx rest ih =>
    intro s
    cases ha : accepted s idx
    · rw [acceptedMarkers, ha]
      simp only [Bool.false_eq_true, if_false]
      rw [applyMove_not_accepted ha]
      exact ih s
    · obtain ⟨hg, hc⟩ := accepted_true_iff.mp ha
      rw [acceptedMarkers, ha]
      simp only [if_true]
      rw [alternatingFrom]
      simp only [beq_self_eq_true, Bool.true_and]
      rcases idx with _ | n
      · simp [cellLookup] at hc
      rw [applyMove_accepted hg hc]
      rcases hcw : checkWinner (s.board.set n.toNat (some s.currentPlayer)) with _ | ⟨w, line⟩
      · rcases hd : isDraw (s.board.set n.toNat (some s.currentPlayer))
        · have h1 : (moveCore s n.toNat).currentPlayer = s.currentPlayer.other := by
            rw [moveCore_cont hcw hd]
          rw [← h1]
          exact ih (moveCore s n.toNat)
        · have h1 : (moveCore s n.toNat).gameOver = true := by
            rw [moveCore_draw hcw hd]
          rw [acceptedMarkers_gameOver rest _ h1]
          rfl
      · have h1 : (moveCore s n.toNat).gameOver = true := by
          rw [moveCore_win hcw]
        rw [acceptedMarkers_gameOver rest _ h1]
        rfl

/-- C5: across every sequence of move requests from the initial state,
the markers of the accepted moves strictly alternate starting with X;
and the one exception to post-move alternation is a winning move, which
leaves `currentPlayer` unchanged. -/
theorem claim_C5 :
    (∀ l : List (Option Int),
      alternatingFrom Player.X (acceptedMarkers initState l) = true) ∧
    (∀ (s : GameState) (n : Nat) (w : Player) (line : List Nat),
      s.gameOver = false → s.board[n]? = some none →
      checkWinner (s.board.set n (some s.currentPlayer)) = some (w, line) →
      (applyMove s (some (n : Int))).currentPlayer = s.currentPlayer) := by
  constructor
  · intro l
    exact alternating_acceptedMarkers l initState
  · intro s n w line hg he hcw
    have hc : cellLookup s.board (some (n : Int)) = some none :=
      (cellLookup_natCast n).trans he
    rw [applyMove_accepted hg hc, Int.toNat_natCast, moveCore_win hcw]

theorem claim_C5_witness :
    alternatingFrom Player.X
      (acceptedMarkers initState [some 0, some 4, some 1]) = true ∧
    (applyMove sWitWin (some ((2 : Nat) : Int))).currentPlayer =
      sWitWin.currentPlayer :=
  ⟨claim_C5.1 [some 0, some 4, some 1],
   claim_C5.2 sWitWin 2 Player.X [0, 1, 2] rfl (by decide) (by decide)⟩

/-- C8: the theme loader is total (never raises) and returns the fixed
default for a throwing store, an absent value, or a value outside the
allow-list; it returns the stored value exactly when it is in the
allow-list. -/
theorem claim_C8 :
    initTheme (Except.error ()) = "dark" ∧
    initTheme (Except.ok none) = "dark" ∧
    (∀ v, themeAllowList.contains v = false →
      initTheme (Except.ok (some v)) = "dark") ∧
    (∀ v, themeAllowList.contains v = true →
      initTheme (Except.ok (some v)) = v) := by
  refine ⟨rfl, rfl, ?_, ?_⟩
  · intro v hv
    have hv2 : v ∉ themeAllowList := by simpa using hv
    by_cases he : v = ""
    · subst he; rfl
    · simp [initTheme, he, hv2]
  · intro v hv
    have hv2 : v ∈ themeAllowList := by simpa using hv
    have hne : v ≠ "" := by
      intro h
      subst h
      simp [themeAllowList] at hv2
    simp [initTheme, hne, hv2]

theorem claim_C8_witness :
    initTheme (Except.ok (some "neon")) = "dark" ∧
    initTheme (Except.ok (some "light")) = "light" :=
  ⟨claim_C8.2.2.1 "neon" (by decide), claim_C8.2.2.2 "light" (by decide)⟩

/-- C9: from the initial state, the move sequence [0,3,1,4,2] puts X on
cells 0, 1 and 2 and ends after the 5th move with `gameOver = true`,
`winner = X` and `winningLine = [0,1,2]`. -/
theorem claim_C9 :
    (List.foldl applyMove initState
        [some 0, some 3, some 1, some 4, some 2]).board[0]? =
      some (some Player.X) ∧
    (List.foldl applyMove initState
        [some 0, some 3, some 1, some 4, some 2]).board[1]? =
      some (some Player.X) ∧
    (List.foldl applyMove initState
        [some 0, some 3, some 1, some 4, some 2]).board[2]? =
      some (some Player.X) ∧
    (List.foldl applyMove initState
        [some 0, some 3, some 1, some 4, some 2]).gameOver = true ∧
    (List.foldl applyMove initState
        [some 0, some 3, some 1, some 4, some 2]).winner = some Player.X ∧
    (List.foldl applyMove initState
        [some 0, some 3, some 1, some 4, some 2]).winningLine = some [0, 1, 2] := by
  decide
